import Mathlib

/-!
Verification of `cleanlab/internal/multilabel_scorer.py`.

The Python module is shallowly embedded: numpy float arrays become lists of
rationals (`List ℚ`), binary label arrays become `List (List ℕ)`, raised
exceptions become `Except PyError`, and `**kwargs` dictionaries become
partial maps `String → Option ℚ`.  External collaborators that the module
imports (the per-class scoring functions from `cleanlab.rank`, the
confident-threshold adjuster, `stack_complement` and `_is_multilabel` from
the utility modules) are either taken as explicit function parameters or
modelled from the specification, as indicated on each definition.
-/

/-- Kind (class) of a raised Python exception. -/
inductive ErrClass where
  | typeError
  | valueError
  | assertionError
  | attributeError
  | indexError
  deriving DecidableEq, Repr

/-- A raised Python exception: its class and its message. -/
structure PyError where
  cls : ErrClass
  msg : String
  deriving DecidableEq, Repr

instance {ε α : Type} [DecidableEq ε] [DecidableEq α] : DecidableEq (Except ε α)
  | .error e, .error f =>
    if h : e = f then isTrue (by rw [h]) else isFalse (by intro hh; injection hh; contradiction)
  | .error _, .ok _ => isFalse (by intro hh; injection hh)
  | .ok _, .error _ => isFalse (by intro hh; injection hh)
  | .ok a, .ok b =>
    if h : a = b then isTrue (by rw [h]) else isFalse (by intro hh; injection hh; contradiction)

/-- A `**kwargs` dictionary whose values are numbers (the only values the
module ever merges are `alpha` and `axis`). `none` means the key is absent. -/
def Kwargs : Type := String → Option ℚ

/-- The empty kwargs dictionary. -/
def emptyKwargs : Kwargs := fun _ => none

/-- `d[k] = v` for a kwargs dictionary: Python `kwargs["axis"] = 1` etc. -/
def setKey (d : Kwargs) (k : String) (v : ℚ) : Kwargs :=
  fun k' => if k' = k then some v else d k'

/-- Python dict merge `{**a, **b}`: on a key collision the value of `b`
(the right/later operand) wins. -/
def dictUnion (a b : Kwargs) : Kwargs :=
  fun k => match b k with
    | some v => some v
    | none => a k

/-- Ascending sort of one row, then reversed: the per-row effect of
`np.fliplr(np.sort(s, axis=1))` in `exponential_moving_average`.
`np.sort` returns the ascending sorted permutation of the row, which is what
`List.insertionSort (· ≤ ·)` computes. -/
def sortDesc (r : List ℚ) : List ℚ :=
  (r.insertionSort (· ≤ ·)).reverse

/-- One row of the EMA loop of `exponential_moving_average`:
`s_ema, s_next = s_T[0], s_T[1:]` followed by
`for s_i in s_next: s_ema = alpha * s_i + (1 - alpha) * s_ema`,
specialised to a single row (the numpy code runs all rows in lockstep).
The `[]` case is unreachable in the embedding (`K = 0` raises earlier). -/
def emaRow (alpha : ℚ) (r : List ℚ) : ℚ :=
  match sortDesc r with
  | [] => 0
  | h :: t => t.foldl (fun acc s => alpha * s + (1 - alpha) * acc) h

/-- `exponential_moving_average(s, alpha=…, axis=1)` from the source.
`K = s.shape[1]`; rows are sorted descending; a missing `alpha` defaults to
`2 / (K + 1)`; an `alpha` outside `[0, 1]` raises `ValueError`; `s_T[0]`
raises `IndexError` when `K = 0`.  The matrix is a list of rows, so
`s.shape[1]` is the length of the first row. -/
def exponential_moving_average (s : List (List ℚ)) (alpha : Option ℚ) :
    Except PyError (List ℚ) :=
  let K := (s.headD []).length
  let a : ℚ := alpha.getD (2 / (K + 1))
  if 0 ≤ a ∧ a ≤ 1 then
    if K = 0 then .error ⟨.indexError, "index 0 is out of bounds for axis 0 with size 0"⟩
    else .ok (s.map (emaRow a))
  else .error ⟨.valueError, "alpha must be in the interval [0, 1]"⟩

/-- The enumeration `ClassLabelScorer` from the source.  The attached scoring
functions live in `cleanlab.rank` (outside the embedded module) and are passed
explicitly to `ClassLabelScorer.call`. -/
inductive ClassLabelScorer where
  | SELF_CONFIDENCE
  | NORMALIZED_MARGIN
  | CONFIDENCE_WEIGHTED_ENTROPY
  deriving DecidableEq, Repr

/-- Python `str.upper()` restricted to the ASCII case mapping, on the
character list of the string (all names involved are ASCII). -/
def pyUpper (s : String) : List Char :=
  s.data.map Char.toUpper

/-- Case-insensitive equality of strings: equal after uppercasing.  This is
the spec notion of one string being a case variant of another. -/
def caseInsensitiveEq (s t : String) : Prop :=
  pyUpper s = pyUpper t

instance (s t : String) : Decidable (caseInsensitiveEq s t) := by
  unfold caseInsensitiveEq; infer_instance

/-- `ClassLabelScorer.from_str`: `cls[method.upper()]`, i.e. an exact lookup
of the uppercased name among the three enum members, raising
`ValueError(f"Invalid method name: {method}")` on a `KeyError`. -/
def ClassLabelScorer.from_str (method : String) : Except PyError ClassLabelScorer :=
  let m := pyUpper method
  if m = "SELF_CONFIDENCE".data then .ok .SELF_CONFIDENCE
  else if m = "NORMALIZED_MARGIN".data then .ok .NORMALIZED_MARGIN
  else if m = "CONFIDENCE_WEIGHTED_ENTROPY".data then .ok .CONFIDENCE_WEIGHTED_ENTROPY
  else .error ⟨.valueError, "Invalid method name: " ++ method⟩

/-- `ClassLabelScorer.__call__` composed with `_adjust_pred_probs`, for one
class column.  `adjuster` stands for `_subtract_confident_thresholds` and
`scoreFn` for the `cleanlab.rank` function attached to each enum member; both
live outside the embedded module.  `adjust_pred_probs` is the only key the
source reads from `**kwargs` (`kwargs.get("adjust_pred_probs", False) is
True`). -/
def ClassLabelScorer.call
    (adjuster : List ℕ → List (List ℚ) → List (List ℚ))
    (scoreFn : ClassLabelScorer → List ℕ → List (List ℚ) → List ℚ)
    (self : ClassLabelScorer) (labels : List ℕ) (pred_probs : List (List ℚ))
    (adjust_pred_probs : Bool) : Except PyError (List ℚ) :=
  if adjust_pred_probs then
    if self = .CONFIDENCE_WEIGHTED_ENTROPY then
      .error ⟨.valueError,
        "adjust_pred_probs is not currently supported for ClassLabelScorer.CONFIDENCE_WEIGHTED_ENTROPY."⟩
    else .ok (scoreFn self labels (adjuster labels pred_probs))
  else .ok (scoreFn self labels pred_probs)

/-- A Python object as seen by the `Aggregator` validators: enough of its
dynamic structure to replay `callable(...)`, `isinstance(..., np.ndarray)`,
`.ndim` and `.shape` accesses.  `typeName` is the text `f"{type(x)}"`
interpolates and `shortTypeName` the bare name an `AttributeError` cites;
`shape` is `none` when the object has no `shape` attribute. -/
structure PyObj where
  typeName : String
  shortTypeName : String
  callable : Bool
  isNdarray : Bool
  ndim : Option ℕ
  shape : Option String
  deriving DecidableEq, Repr

/-- `Aggregator._validate_method`: `assert callable(method), f"Expected
callable method, got {type(method)}"`.  A failing `assert` raises
`AssertionError` with that message. -/
def Aggregator._validate_method (method : PyObj) : Except PyError Unit :=
  if method.callable then .ok ()
  else .error ⟨.assertionError, "Expected callable method, got " ++ method.typeName⟩

/-- `Aggregator._validate_scores`: raises
`ValueError(f"Expected 2D array for scores, got {type(scores)} with shape
{scores.shape}")` unless `scores` is a 2-dimensional `np.ndarray`.  The
f-string is evaluated before the `ValueError` is constructed, so an object
without a `shape` attribute makes the `scores.shape` access itself raise
`AttributeError` instead. -/
def Aggregator._validate_scores (scores : PyObj) : Except PyError Unit :=
  if scores.isNdarray ∧ scores.ndim = some 2 then .ok ()
  else match scores.shape with
    | some sh => .error ⟨.valueError,
        "Expected 2D array for scores, got " ++ scores.typeName ++ " with shape " ++ sh⟩
    | none => .error ⟨.attributeError,
        scores.shortTypeName ++ " object has no attribute shape"⟩

/-- The `Aggregator` class for the score pipeline: a reduction method plus
the keyword arguments bound at construction.  In the pipeline the scores
argument is always the genuine 2-D array built by `MultilabelScorer.__call__`
(the dynamic checks of `_validate_scores` are replayed on `PyObj` above), so
the method here acts directly on the matrix of rationals.  The method
receives the merged kwargs dictionary and reduces along `axis=1`. -/
structure Aggregator where
  method : List (List ℚ) → Kwargs → Except PyError (List ℚ)
  kwargs : Kwargs

/-- `Aggregator.__call__`: `kwargs["axis"] = 1` then
`self.method(scores, **{**kwargs, **self.kwargs})` — on a key collision the
construction-time `self.kwargs` value wins. -/
def Aggregator.call (self : Aggregator) (scores : List (List ℚ))
    (kwargs : Kwargs) : Except PyError (List ℚ) :=
  self.method scores (dictUnion (setKey kwargs "axis" 1) self.kwargs)

/-- `exponential_moving_average` as an `Aggregator` method: it reads `alpha`
from the merged kwargs (its `axis` parameter is the class axis `1`, the form
already fixed by the row-wise embedding; trailing `**_` ignores the rest). -/
def emaMethod : List (List ℚ) → Kwargs → Except PyError (List ℚ) :=
  fun s kw => exponential_moving_average s (kw "alpha")

/-- `np.min(scores, axis=1)` as an `Aggregator` method: the row-wise minimum;
reducing a zero-size axis raises `ValueError`. -/
def npMinMethod : List (List ℚ) → Kwargs → Except PyError (List ℚ) :=
  fun s _ =>
    if s.all (fun r => !r.isEmpty) then
      .ok (s.map (fun r => match r with | [] => 0 | h :: t => t.foldl min h))
    else .error ⟨.valueError, "zero-size array to reduction operation minimum which has no identity"⟩

/-- The default aggregator of `MultilabelScorer.__init__`:
`Aggregator(exponential_moving_average, alpha=0.8)`. -/
def defaultAggregator : Aggregator :=
  ⟨emaMethod, fun k => if k = "alpha" then some (4 / 5) else none⟩

/-- An `Aggregator(f)` with no bound kwargs, as built by
`MultilabelScorer.__init__` when handed a plain callable such as `np.min`. -/
def aggregatorOf (m : List (List ℚ) → Kwargs → Except PyError (List ℚ)) : Aggregator :=
  ⟨m, emptyKwargs⟩

/-- Modelled from the spec: `stack_complement` from
`cleanlab.internal.multilabel_utils` (not under `src/`): "Construct the
2-column probability matrix `[1 - pred_probs[:,i], pred_probs[:,i]]`
(complement stacking)". -/
def stack_complement (p : List ℚ) : List (List ℚ) :=
  p.map (fun x => [1 - x, x])

/-- Modelled from the spec: `_is_multilabel` from
`cleanlab.internal.multilabel_utils` (not under `src/`): labels must be "a 2D
array of 0/1 entries".  In the list-of-rows embedding 2-dimensionality is
rectangularity (every row as long as the first). -/
def _is_multilabel (y : List (List ℕ)) : Bool :=
  y.all (fun r => r.length = (y.headD []).length) &&
    y.all (fun r => r.all (fun x => x = 0 || x = 1))

/-- Modelled from the spec: `get_self_confidence_for_each_label` from
`cleanlab.rank` (not under `src/`): the self-confidence score of a datapoint
is the predicted probability of its given label, `pred_probs[i, labels[i]]` —
the behaviour the docstring example of `ClassLabelScorer.__call__` in the
source displays. -/
def get_self_confidence_for_each_label (labels : List ℕ)
    (pred_probs : List (List ℚ)) : List ℚ :=
  (labels.zip pred_probs).map (fun lp => lp.2.getD lp.1 0)

/-- `MultilabelScorer._validate_labels_and_pred_probs`.  The `labels` argument
is a numpy array at type level in the embedding, so the `isinstance` check
cannot fire; the remaining checks are the `_is_multilabel` format check and
the shape comparison. -/
def _validate_labels_and_pred_probs (labels : List (List ℕ))
    (pred_probs : List (List ℚ)) : Except PyError Unit :=
  if ¬ _is_multilabel labels then
    .error ⟨.valueError, "Labels must be in multi-label format."⟩
  else if ¬ (labels.map List.length = pred_probs.map List.length) then
    .error ⟨.valueError, "Labels and predicted probabilities must have the same shape."⟩
  else .ok ()

/-- numpy transpose `m.T` of a rectangular matrix held as a list of rows:
column `j` collects entry `j` of every row; the number of columns is the
length of the first row (`d` is the out-of-range default, never reached on
rectangular input). -/
def npTransposeD {α : Type} (d : α) (m : List (List α)) : List (List α) :=
  (List.range (m.headD []).length).map (fun j => m.map (fun r => r.getD j d))

/-- The per-column scoring loop of `MultilabelScorer.__call__`: apply `f` to
each `(labels.T, pred_probs.T)` column pair, propagating the first raised
exception. -/
def computeScoreCols (f : List ℕ × List ℚ → Except PyError (List ℚ)) :
    List (List ℕ × List ℚ) → Except PyError (List (List ℚ))
  | [] => .ok []
  | c :: cs =>
    match f c with
    | .error e => .error e
    | .ok v =>
      match computeScoreCols f cs with
      | .error e => .error e
      | .ok vs => .ok (v :: vs)

/-- The `MultilabelScorer` class: a base scorer, an aggregator and the
strictness flag. -/
structure MultilabelScorer where
  base_scorer : ClassLabelScorer
  aggregator : Aggregator
  strict : Bool

/-- `MultilabelScorer()` with all defaults:
`base_scorer=ClassLabelScorer.SELF_CONFIDENCE`,
`aggregator=Aggregator(exponential_moving_average, alpha=0.8)`,
`strict=True`. -/
def defaultMultilabelScorer : MultilabelScorer :=
  ⟨.SELF_CONFIDENCE, defaultAggregator, true⟩

/-- `MultilabelScorer.__call__`: optional strict validation; per class column
`i`, score `(labels[:,i], stack_complement(pred_probs[:,i]))` with the base
scorer into column `i` of `scores = np.zeros(labels.shape)` (the column
assignment broadcasts only vectors of length `N = len(labels)`); finally hand
the scores matrix and the call-time kwargs to the aggregator.  `adjuster` and
`scoreFn` are the external collaborators threaded through to
`ClassLabelScorer.call`; `adjust_pred_probs` embeds `base_scorer_kwargs`. -/
def MultilabelScorer.call
    (adjuster : List ℕ → List (List ℚ) → List (List ℚ))
    (scoreFn : ClassLabelScorer → List ℕ → List (List ℚ) → List ℚ)
    (self : MultilabelScorer)
    (labels : List (List ℕ)) (pred_probs : List (List ℚ))
    (adjust_pred_probs : Bool) (aggregator_kwargs : Kwargs) :
    Except PyError (List ℚ) :=
  match (if self.strict then _validate_labels_and_pred_probs labels pred_probs else .ok ()) with
  | .error e => .error e
  | .ok _ =>
    let cols := (npTransposeD 0 labels).zip (npTransposeD 0 pred_probs)
    match computeScoreCols
        (fun c => self.base_scorer.call adjuster scoreFn c.1 (stack_complement c.2)
          adjust_pred_probs) cols with
    | .error e => .error e
    | .ok scoreCols =>
      if scoreCols.all (fun c => c.length = labels.length) then
        self.aggregator.call (npTransposeD 0 scoreCols) aggregator_kwargs
      else .error ⟨.valueError, "could not broadcast input array"⟩

/-- Big-endian binary value of a 0/1 row: the first column is the most
significant bit — `np.sum(row * 2 ** np.arange(K)[::-1])` in Horner form. -/
def bigEndianVal (r : List ℕ) : ℕ :=
  r.foldl (fun a b => 2 * a + b) 0

/-- `itertools.product([0, 1], repeat=K)`: all K-bit configurations in
lexicographic order, the leftmost position varying slowest. -/
def allConfigs : ℕ → List (List ℕ)
  | 0 => [[]]
  | K + 1 => (allConfigs K).map (0 :: ·) ++ (allConfigs K).map (1 :: ·)

/-- Row-lexicographic comparison on ℕ-lists, as `np.unique(axis=0)` orders
rows. -/
def lexLeB : List ℕ → List ℕ → Bool
  | [], _ => true
  | _ :: _, [] => false
  | a :: as, b :: bs => if a < b then true else if b < a then false else lexLeB as bs

/-- Propositional form of `lexLeB`. -/
def lexLe (a b : List ℕ) : Prop := lexLeB a b = true

instance : DecidableRel lexLe := fun a b => by unfold lexLe; infer_instance

instance : IsTotal (List ℕ) lexLe := ⟨by
  intro a b
  show lexLeB a b = true ∨ lexLeB b a = true
  induction a generalizing b with
  | nil => left; rfl
  | cons x as ih =>
    cases b with
    | nil => right; rfl
    | cons y bs =>
      rcases Nat.lt_trichotomy x y with h | h | h
      · left; simp [lexLeB, h]
      · subst h
        rcases ih bs with h | h
        · left; simp [lexLeB, h]
        · right; simp [lexLeB, h]
      · right; simp [lexLeB, h, Nat.not_lt_of_lt h]⟩

instance : IsTrans (List ℕ) lexLe := ⟨by
  intro a b c h1 h2
  rw [lexLe] at h1 h2 ⊢
  induction a generalizing b c with
  | nil => rfl
  | cons x as ih =>
    cases b with
    | nil => simp [lexLeB] at h1
    | cons y bs =>
      cases c with
      | nil => simp [lexLeB] at h2
      | cons z cs =>
        rcases Nat.lt_trichotomy x y with hxy | hxy | hxy
        · rcases Nat.lt_trichotomy y z with hyz | hyz | hyz
          · simp [lexLeB, Nat.lt_trans hxy hyz]
          · subst hyz; simp [lexLeB, hxy]
          · simp [lexLeB, hyz, Nat.not_lt_of_lt hyz] at h2
        · subst hxy
          rcases Nat.lt_trichotomy x z with hyz | hyz | hyz
          · simp [lexLeB, hyz]
          · subst hyz
            simp only [lexLeB, lt_irrefl, if_false] at h1 h2 ⊢
            exact ih _ _ h1 h2
          · simp [lexLeB, hyz, Nat.not_lt_of_lt hyz] at h2
        · simp [lexLeB, hxy, Nat.not_lt_of_lt hxy] at h1⟩

instance : IsAntisymm (List ℕ) lexLe := ⟨by
  intro a b h1 h2
  rw [lexLe] at h1 h2
  induction a generalizing b with
  | nil =>
    cases b with
    | nil => rfl
    | cons y bs => simp [lexLeB] at h2
  | cons x as ih =>
    cases b with
    | nil => simp [lexLeB] at h1
    | cons y bs =>
      rcases Nat.lt_trichotomy x y with h | h | h
      · simp [lexLeB, h, Nat.not_lt_of_lt h] at h2
      · subst h
        simp only [lexLeB, lt_irrefl, if_false] at h1 h2
        rw [ih _ h1 h2]
      · simp [lexLeB, h, Nat.not_lt_of_lt h] at h1⟩

/-- The first component of `np.unique(y, axis=0, return_counts=True)`: the
distinct rows of `y` in ascending lexicographic order. -/
def npUniqueRows (y : List (List ℕ)) : List (List ℕ) :=
  (y.dedup).insertionSort lexLe

/-- The key order `np.argsort(np.sum(unique_labels * 2 ** np.arange(K)[::-1],
axis=1))` sorts the (row, count) pairs by: big-endian value of the row. -/
def valLe (p q : List ℕ × ℕ) : Prop :=
  bigEndianVal p.1 ≤ bigEndianVal q.1

instance : DecidableRel valLe := fun p q => by unfold valLe; infer_instance

/-- `_fix_missing_class_count` from the source: when fewer than `2^K`
distinct rows were observed, append the missing configurations with count 0
and sort the counts by the big-endian value of their configuration (the
values are pairwise distinct, so any sort realises `np.argsort`). -/
def _fix_missing_class_count (K : ℕ) (unique_labels : List (List ℕ))
    (counts : List ℕ) : List ℕ :=
  if unique_labels.length < 2 ^ K then
    let missing := (allConfigs K).filter (fun c => decide (c ∉ unique_labels))
    let labelsAll := unique_labels ++ missing
    let countsAll := counts ++ missing.map (fun _ => 0)
    ((labelsAll.zip countsAll).insertionSort valLe).map Prod.snd
  else counts

/-- `multilabel_py` from the source: distinct-row counts from `np.unique`,
zero-filled for missing configurations by `_fix_missing_class_count`, divided
by `N = len(y)`. -/
def multilabel_py (y : List (List ℕ)) : List ℚ :=
  let N := y.length
  let K := (y.headD []).length
  let unique_labels := npUniqueRows y
  let counts := unique_labels.map (fun u => y.count u)
  (_fix_missing_class_count K unique_labels counts).map (fun c : ℕ => (c : ℚ) / N)

/-- Strict version of `valLe`, used to identify the unique sorted order of
pairs with pairwise-distinct configuration values. -/
def valLt (p q : List ℕ × ℕ) : Prop :=
  bigEndianVal p.1 < bigEndianVal q.1

instance : IsAntisymm (List ℕ × ℕ) valLt :=
  ⟨fun _ _ h1 h2 => absurd h2 (lt_asymm h1)⟩

instance : IsTotal (List ℕ × ℕ) valLe := ⟨fun _ _ => Nat.le_total _ _⟩

instance : IsTrans (List ℕ × ℕ) valLe := ⟨fun _ _ _ => Nat.le_trans⟩

/-- Applying one column permutation to both matrices: row `r` becomes
`[r[σ 0], r[σ 1], …]`. -/
def permColsD {α : Type} (d : α) (σ : List ℕ) (m : List (List α)) : List (List α) :=
  m.map (fun r => σ.map (fun j => r.getD j d))

/-- If `t` is a permutation of `r` sorted in descending order, then `t` is
exactly what `sortDesc` computes: descending sorted permutations are unique. -/
theorem sortDesc_eq_of_perm_of_sorted {r t : List ℚ} (hp : t.Perm r)
    (hs : t.Sorted (· ≥ ·)) : sortDesc r = t := by
  have h1 : (t.reverse).Sorted (· ≤ ·) := by
    simpa [List.Sorted, List.pairwise_reverse] using hs
  have h2 : (r.insertionSort (· ≤ ·)).Perm t.reverse :=
    ((r.perm_insertionSort (· ≤ ·)).trans hp.symm).trans (List.reverse_perm t).symm
  have h3 : r.insertionSort (· ≤ ·) = t.reverse :=
    List.eq_of_perm_of_sorted h2 (List.sorted_insertionSort (· ≤ ·) r) h1
  simp [sortDesc, h3]

/-- `emaRow` characterised without mentioning the sorting algorithm: fold the
update over any descending-sorted permutation of the row, starting from its
head. -/
theorem emaRow_eq_fold {a : ℚ} {r t : List ℚ} (hp : t.Perm r)
    (hs : t.Sorted (· ≥ ·)) :
    emaRow a r = t.tail.foldl (fun acc s => a * s + (1 - a) * acc) (t.headD 0) := by
  rw [emaRow, sortDesc_eq_of_perm_of_sorted hp hs]
  cases t <;> simp

/-- `sortDesc r` is a permutation of `r`. -/
theorem sortDesc_perm (r : List ℚ) : (sortDesc r).Perm r :=
  (List.reverse_perm _).trans (r.perm_insertionSort (· ≤ ·))

/-- `sortDesc r` is sorted in descending order. -/
theorem sortDesc_sorted (r : List ℚ) : (sortDesc r).Sorted (· ≥ ·) := by
  have := List.sorted_insertionSort (· ≤ ·) r
  simpa [sortDesc, List.Sorted, List.pairwise_reverse] using this

/-- Rows that are permutations of each other have the same EMA. -/
theorem emaRow_perm {a : ℚ} {r r' : List ℚ} (h : r.Perm r') :
    emaRow a r = emaRow a r' := by
  have hp : (sortDesc r').Perm r := (sortDesc_perm r').trans h.symm
  rw [emaRow_eq_fold hp (sortDesc_sorted r'), emaRow]
  cases hd : sortDesc r' <;> simp

/-- C5: for every 2D score matrix and every supplied alpha with alpha < 0 or
alpha > 1, `exponential_moving_average` raises a `ValueError` rather than
returning a result. -/
theorem C5_ema_raises_on_out_of_range_alpha (s : List (List ℚ)) (a : ℚ)
    (h : a < 0 ∨ 1 < a) :
    exponential_moving_average s (some a) =
      .error ⟨.valueError, "alpha must be in the interval [0, 1]"⟩ := by
  have hn : ¬ (0 ≤ a ∧ a ≤ 1) := by
    rintro ⟨h1, h2⟩; rcases h with h | h <;> linarith
  simp [exponential_moving_average, hn]

/-- Witness for C5 at `s = [[1/2]]`, `alpha = 2`. -/
theorem C5_witness :
    exponential_moving_average [[(1:ℚ)/2]] (some 2) =
      .error ⟨.valueError, "alpha must be in the interval [0, 1]"⟩ :=
  C5_ema_raises_on_out_of_range_alpha [[(1:ℚ)/2]] 2 (Or.inr (by norm_num))

/-- C6 counterexample: with the N×1 matrix `[[1/2]]` and the supplied alpha
`2`, `exponential_moving_average` raises instead of returning the single
score unchanged, so the claim is false for an arbitrary alpha. -/
theorem C6_counterexample :
    exponential_moving_average [[(1:ℚ)/2]] (some 2) ≠ .ok [(1:ℚ)/2] := by
  have h : exponential_moving_average [[(1:ℚ)/2]] (some 2) =
      .error ⟨.valueError, "alpha must be in the interval [0, 1]"⟩ := by
    have hn : ¬ ((0:ℚ) ≤ 2 ∧ (2:ℚ) ≤ 1) := by
      rintro ⟨_, h2⟩; norm_num at h2
    simp [exponential_moving_average, hn]
  rw [h]
  intro hh; injection hh

/-- C6 amended: for every N×1 score matrix and any alpha that is either not
supplied or lies in [0, 1], `exponential_moving_average` returns each row's
single score unchanged. -/
theorem C6_k1_returns_scores_unchanged (s : List (List ℚ)) (alpha : Option ℚ)
    (hne : s ≠ []) (h1 : ∀ r ∈ s, r.length = 1)
    (ha : ∀ a, alpha = some a → 0 ≤ a ∧ a ≤ 1) :
    exponential_moving_average s alpha = .ok (s.map (fun r => r.headD 0)) := by
  obtain ⟨r0, t, rfl⟩ : ∃ r0 t, s = r0 :: t := by
    cases s with
    | nil => exact absurd rfl hne
    | cons r0 t => exact ⟨r0, t, rfl⟩
  have hK : (List.headD (r0 :: t) []).length = 1 := h1 r0 (by simp)
  have hrow : ∀ r ∈ r0 :: t, ∀ a : ℚ, emaRow a r = r.headD 0 := by
    intro r hr a
    obtain ⟨x, rfl⟩ : ∃ x, r = [x] := by
      cases r with
      | nil => simpa using h1 _ hr
      | cons x u =>
        cases u with
        | nil => exact ⟨x, rfl⟩
        | cons y v => simpa using h1 _ hr
    simp [emaRow, sortDesc, List.insertionSort, List.orderedInsert]
  cases alpha with
  | none =>
    have : ((2 : ℚ) / (1 + 1)) = 1 := by norm_num
    simp only [exponential_moving_average, hK, Option.getD_none]
    rw [if_pos (by push_cast; norm_num)]
    rw [if_neg (by norm_num)]
    exact congrArg Except.ok (List.map_congr_left (fun r hr => hrow r hr _))
  | some a =>
    obtain ⟨ha0, ha1⟩ := ha a rfl
    simp only [exponential_moving_average, hK, Option.getD_some]
    rw [if_pos ⟨ha0, ha1⟩]
    rw [if_neg (by norm_num)]
    exact congrArg Except.ok (List.map_congr_left (fun r hr => hrow r hr _))

/-- Witness for C6 amended at `s = [[3/10], [2/5]]`, `alpha = 1/4`. -/
theorem C6_witness :
    exponential_moving_average [[(3:ℚ)/10], [(2:ℚ)/5]] (some (1/4)) =
      .ok [(3:ℚ)/10, (2:ℚ)/5] := by
  have := C6_k1_returns_scores_unchanged [[(3:ℚ)/10], [(2:ℚ)/5]] (some (1/4))
    (by simp) (by decide)
    (by rintro a ⟨rfl⟩; norm_num)
  simpa using this

/-- C7: every case variant of one of the three method names maps to the
corresponding variant, and every other string raises a `ValueError` whose
message names the offending string. -/
theorem C7_from_str_case_insensitive (s : String) :
    (caseInsensitiveEq s "self_confidence" →
      ClassLabelScorer.from_str s = .ok .SELF_CONFIDENCE) ∧
    (caseInsensitiveEq s "normalized_margin" →
      ClassLabelScorer.from_str s = .ok .NORMALIZED_MARGIN) ∧
    (caseInsensitiveEq s "confidence_weighted_entropy" →
      ClassLabelScorer.from_str s = .ok .CONFIDENCE_WEIGHTED_ENTROPY) ∧
    (¬ caseInsensitiveEq s "self_confidence" →
     ¬ caseInsensitiveEq s "normalized_margin" →
     ¬ caseInsensitiveEq s "confidence_weighted_entropy" →
      ClassLabelScorer.from_str s =
        .error ⟨.valueError, "Invalid method name: " ++ s⟩) := by
  have e1 : pyUpper "self_confidence" = "SELF_CONFIDENCE".data := by decide
  have e2 : pyUpper "normalized_margin" = "NORMALIZED_MARGIN".data := by decide
  have e3 : pyUpper "confidence_weighted_entropy" = "CONFIDENCE_WEIGHTED_ENTROPY".data := by
    decide
  unfold caseInsensitiveEq
  rw [e1, e2, e3]
  refine ⟨fun h => ?_, fun h => ?_, fun h => ?_, fun h1 h2 h3 => ?_⟩
  · simp [ClassLabelScorer.from_str, h]
  · rw [ClassLabelScorer.from_str]
    rw [if_neg (by rw [h]; decide), if_pos h]
  · rw [ClassLabelScorer.from_str]
    rw [if_neg (by rw [h]; decide), if_neg (by rw [h]; decide), if_pos h]
  · rw [ClassLabelScorer.from_str]
    rw [if_neg h1, if_neg h2, if_neg h3]

/-- Witness for C7: both spellings of self_confidence resolve, a mixed-case
normalized_margin resolves, and an unknown name raises naming the string. -/
theorem C7_witness :
    ClassLabelScorer.from_str "self_confidence" = .ok .SELF_CONFIDENCE ∧
    ClassLabelScorer.from_str "SELF_CONFIDENCE" = .ok .SELF_CONFIDENCE ∧
    ClassLabelScorer.from_str "Normalized_Margin" = .ok .NORMALIZED_MARGIN ∧
    ClassLabelScorer.from_str "entropy" =
      .error ⟨.valueError, "Invalid method name: entropy"⟩ :=
  ⟨(C7_from_str_case_insensitive "self_confidence").1 (by decide),
   (C7_from_str_case_insensitive "SELF_CONFIDENCE").1 (by decide),
   (C7_from_str_case_insensitive "Normalized_Margin").2.1 (by decide),
   (C7_from_str_case_insensitive "entropy").2.2.2 (by decide) (by decide) (by decide)⟩

/-- C9: requesting `adjust_pred_probs=True` with the entropy-based variant
raises `ValueError` before any scoring function runs (the result does not
depend on `scoreFn`), while the other two variants score the
confident-threshold-adjusted probability matrix. -/
theorem C9_adjust_pred_probs_entropy_unsupported
    (adjuster : List ℕ → List (List ℚ) → List (List ℚ))
    (scoreFn : ClassLabelScorer → List ℕ → List (List ℚ) → List ℚ)
    (labels : List ℕ) (pred_probs : List (List ℚ)) :
    ClassLabelScorer.call adjuster scoreFn .CONFIDENCE_WEIGHTED_ENTROPY
        labels pred_probs true =
      .error ⟨.valueError,
        "adjust_pred_probs is not currently supported for ClassLabelScorer.CONFIDENCE_WEIGHTED_ENTROPY."⟩ ∧
    (∀ v : ClassLabelScorer, v ≠ .CONFIDENCE_WEIGHTED_ENTROPY →
      ClassLabelScorer.call adjuster scoreFn v labels pred_probs true =
        .ok (scoreFn v labels (adjuster labels pred_probs))) := by
  constructor
  · simp [ClassLabelScorer.call]
  · intro v hv
    simp [ClassLabelScorer.call, hv]

/-- Witness for C9 at concrete arguments: the identity adjuster, a constant
scoring function, one datapoint. -/
theorem C9_witness :
    ClassLabelScorer.call (fun _ p => p) (fun _ _ _ => [(1:ℚ)])
        .CONFIDENCE_WEIGHTED_ENTROPY [1] [[(1:ℚ)/2, (1:ℚ)/2]] true =
      .error ⟨.valueError,
        "adjust_pred_probs is not currently supported for ClassLabelScorer.CONFIDENCE_WEIGHTED_ENTROPY."⟩ ∧
    ClassLabelScorer.call (fun _ p => p) (fun _ _ _ => [(1:ℚ)])
        .SELF_CONFIDENCE [1] [[(1:ℚ)/2, (1:ℚ)/2]] true = .ok [(1:ℚ)] :=
  ⟨(C9_adjust_pred_probs_entropy_unsupported (fun _ p => p) (fun _ _ _ => [(1:ℚ)])
      [1] [[(1:ℚ)/2, (1:ℚ)/2]]).1,
   (C9_adjust_pred_probs_entropy_unsupported (fun _ p => p) (fun _ _ _ => [(1:ℚ)])
      [1] [[(1:ℚ)/2, (1:ℚ)/2]]).2 .SELF_CONFIDENCE (by decide)⟩

/-- C10: in the kwargs merge `{**call_time(axis=1), **bound}` of
`Aggregator.__call__` the construction-time bound value wins on every shared
key, axis included; the default `MultilabelScorer`'s aggregator binds
`alpha=0.8`, so every call of it runs the EMA with `alpha = 0.8`, whatever
alpha was passed at call time, and the `2/(K+1)` default is never reached. -/
theorem C10_bound_kwargs_win :
    (∀ (callKw bound : Kwargs) (k : String) (v : ℚ), bound k = some v →
      dictUnion (setKey callKw "axis" 1) bound k = some v) ∧
    defaultMultilabelScorer.aggregator.kwargs "alpha" = some (4/5) ∧
    (∀ (scores : List (List ℚ)) (callKw : Kwargs),
      defaultMultilabelScorer.aggregator.call scores callKw =
        exponential_moving_average scores (some (4/5))) ∧
    (∀ callKw : Kwargs,
      dictUnion (setKey callKw "axis" 1) defaultAggregator.kwargs "alpha" =
        some (4/5)) := by
  refine ⟨fun callKw bound k v h => ?_, rfl, fun scores callKw => ?_, fun callKw => rfl⟩
  · simp [dictUnion, h]
  · rfl

/-- Witness for C10: a call-time `alpha=0.3` is overridden by the bound
`alpha=0.8` of the default aggregator. -/
theorem C10_witness :
    dictUnion (setKey emptyKwargs "axis" 1)
        (fun k => if k = "alpha" then some ((3:ℚ)/10) else none) "alpha" =
      some ((3:ℚ)/10) ∧
    defaultMultilabelScorer.aggregator.call
        [[(1:ℚ)/2, (9:ℚ)/10]] (setKey emptyKwargs "alpha" (3/10)) =
      exponential_moving_average [[(1:ℚ)/2, (9:ℚ)/10]] (some (4/5)) :=
  ⟨C10_bound_kwargs_win.1 emptyKwargs _ "alpha" ((3:ℚ)/10) rfl,
   C10_bound_kwargs_win.2.2.1 [[(1:ℚ)/2, (9:ℚ)/10]] (setKey emptyKwargs "alpha" (3/10))⟩

/-- C8 counterexample: `Aggregator(42)` fails with an `AssertionError`, not a
`TypeError` (the check is a bare `assert`), and calling an aggregator on a
plain Python list fails with an `AttributeError` raised while the error
message's f-string reads `.shape`, not with a shape/type error carrying the
designed message. -/
theorem C8_counterexample :
    Aggregator._validate_method ⟨"class int", "int", false, false, none, none⟩ =
      .error ⟨.assertionError, "Expected callable method, got class int"⟩ ∧
    ErrClass.assertionError ≠ ErrClass.typeError ∧
    Aggregator._validate_scores ⟨"class list", "list", false, false, none, none⟩ =
      .error ⟨.attributeError, "list object has no attribute shape"⟩ ∧
    ErrClass.attributeError ≠ ErrClass.valueError ∧
    ErrClass.attributeError ≠ ErrClass.typeError := by
  refine ⟨?_, by decide, ?_, by decide, by decide⟩ <;> rfl

/-- C8 amended: a non-callable method makes construction fail with an
`AssertionError` whose message identifies the received type; a call on a
non-2D input fails with a `ValueError` naming type and shape when the object
has a `shape` attribute, and with an `AttributeError` (raised while the
message is formatted) when it does not. -/
theorem C8_validation_errors :
    (∀ m : PyObj, m.callable = false →
      Aggregator._validate_method m =
        .error ⟨.assertionError, "Expected callable method, got " ++ m.typeName⟩) ∧
    (∀ (s : PyObj) (sh : String), ¬ (s.isNdarray = true ∧ s.ndim = some 2) →
      s.shape = some sh →
      Aggregator._validate_scores s =
        .error ⟨.valueError,
          "Expected 2D array for scores, got " ++ s.typeName ++ " with shape " ++ sh⟩) ∧
    (∀ s : PyObj, ¬ (s.isNdarray = true ∧ s.ndim = some 2) → s.shape = none →
      Aggregator._validate_scores s =
        .error ⟨.attributeError, s.shortTypeName ++ " object has no attribute shape"⟩) := by
  refine ⟨fun m hm => ?_, fun s sh hs hsh => ?_, fun s hs hsh => ?_⟩
  · simp [Aggregator._validate_method, hm]
  · rw [Aggregator._validate_scores, if_neg (by simpa using hs), hsh]
  · rw [Aggregator._validate_scores, if_neg (by simpa using hs), hsh]

/-- Witness for C8 amended, at a non-callable int, a 1-D ndarray, and a plain
list. -/
theorem C8_witness :
    Aggregator._validate_method ⟨"class float", "float", false, false, none, none⟩ =
      .error ⟨.assertionError, "Expected callable method, got class float"⟩ ∧
    Aggregator._validate_scores ⟨"class ndarray", "ndarray", false, true, some 1, some "(3,)"⟩ =
      .error ⟨.valueError,
        "Expected 2D array for scores, got class ndarray with shape (3,)"⟩ ∧
    Aggregator._validate_scores ⟨"class tuple", "tuple", false, false, none, none⟩ =
      .error ⟨.attributeError, "tuple object has no attribute shape"⟩ :=
  ⟨C8_validation_errors.1 ⟨"class float", "float", false, false, none, none⟩ rfl,
   C8_validation_errors.2.1 ⟨"class ndarray", "ndarray", false, true, some 1, some "(3,)"⟩
     "(3,)" (by simp) rfl,
   C8_validation_errors.2.2 ⟨"class tuple", "tuple", false, false, none, none⟩
     (by simp) rfl⟩

/-- C2: `exponential_moving_average` sorts each row descending, defaults a
missing alpha to `2/(K+1)`, starts each row's running average at its largest
score and folds `running ← alpha*s_i + (1-alpha)*running` over the remaining
ranks, returning one value per row; and
`exponential_moving_average [[0.1,0.2,0.3]] (alpha=0.5) = [0.175]`. -/
theorem C2_ema_definition (s : List (List ℚ)) (K : ℕ) (a : ℚ)
    (hs : s ≠ []) (hK : 1 ≤ K) (hrect : ∀ r ∈ s, r.length = K)
    (ha : 0 ≤ a ∧ a ≤ 1) :
    (exponential_moving_average s (some a) = .ok (s.map (emaRow a)) ∧
     ∀ r ∈ s, ∀ t : List ℚ, t.Perm r → t.Sorted (· ≥ ·) →
       emaRow a r = t.tail.foldl (fun acc x => a * x + (1 - a) * acc) (t.headD 0)) ∧
    exponential_moving_average s none =
      exponential_moving_average s (some (2 / (K + 1))) ∧
    exponential_moving_average [[(1:ℚ)/10, 1/5, 3/10]] (some (1/2)) =
      .ok [(7:ℚ)/40] := by
  have hhead : (s.headD []).length = K := by
    obtain ⟨r0, t, rfl⟩ : ∃ r0 t, s = r0 :: t := by
      cases s with
      | nil => exact absurd rfl hs
      | cons r0 t => exact ⟨r0, t, rfl⟩
    exact hrect r0 (by simp)
  refine ⟨⟨?_, ?_⟩, ?_, ?_⟩
  · simp only [exponential_moving_average, hhead, Option.getD_some]
    rw [if_pos ha, if_neg (by omega)]
  · intro r _ t hp hsort
    exact emaRow_eq_fold hp hsort
  · simp only [exponential_moving_average, hhead, Option.getD_some, Option.getD_none]
  · have h1 : emaRow ((1:ℚ)/2) [(1:ℚ)/10, 1/5, 3/10] = (7:ℚ)/40 := by
      have hsd : sortDesc [(1:ℚ)/10, 1/5, 3/10] = [(3:ℚ)/10, 1/5, 1/10] := by
        apply sortDesc_eq_of_perm_of_sorted
        · simpa using (List.reverse_perm [(1:ℚ)/10, 1/5, 3/10])
        · refine List.Sorted.cons ?_ (List.Sorted.cons ?_ ?_) <;> norm_num
      rw [emaRow, hsd]
      show List.foldl _ ((3:ℚ)/10) [(1:ℚ)/5, 1/10] = (7:ℚ)/40
      rw [List.foldl_cons, List.foldl_cons, List.foldl_nil]
      norm_num
    simp only [exponential_moving_average, List.headD_cons, Option.getD_some]
    rw [if_pos (by norm_num), if_neg (by norm_num)]
    rw [List.map_cons, List.map_nil, h1]

/-- Witness for C2 at the concrete 1×3 matrix of the spec scenario with
`alpha = 1/2`. -/
theorem C2_witness :
    exponential_moving_average [[(1:ℚ)/10, 1/5, 3/10]] (some (1/2)) =
      .ok [(7:ℚ)/40] :=
  (C2_ema_definition [[(1:ℚ)/10, 1/5, 3/10]] 3 (1/2) (by simp) (by omega)
    (by decide) (by norm_num)).2.2

theorem bigEndianVal_aux (c : List ℕ) (a : ℕ) :
    c.foldl (fun x b => 2 * x + b) a = a * 2 ^ c.length + bigEndianVal c := by
  induction c generalizing a with
  | nil => simp [bigEndianVal]
  | cons b cs ih =>
    have hv : bigEndianVal (b :: cs) = b * 2 ^ cs.length + bigEndianVal cs := by
      rw [bigEndianVal, List.foldl_cons, ih]
      norm_num
    rw [List.foldl_cons, ih, hv, List.length_cons, pow_succ]
    ring

theorem bigEndianVal_cons0 (c : List ℕ) : bigEndianVal (0 :: c) = bigEndianVal c := by
  rw [bigEndianVal, bigEndianVal, List.foldl_cons]

theorem bigEndianVal_cons1 (c : List ℕ) :
    bigEndianVal (1 :: c) = 2 ^ c.length + bigEndianVal c := by
  rw [bigEndianVal, List.foldl_cons, bigEndianVal_aux]
  simp

theorem allConfigs_length (K : ℕ) : (allConfigs K).length = 2 ^ K := by
  induction K with
  | zero => rfl
  | succ K ih => simp [allConfigs, ih, pow_succ]; ring

theorem allConfigs_mem {K : ℕ} {c : List ℕ} :
    c ∈ allConfigs K ↔ c.length = K ∧ ∀ x ∈ c, x ≤ 1 := by
  induction K generalizing c with
  | zero =>
    simp only [allConfigs, List.mem_singleton]
    constructor
    · rintro rfl; simp
    · rintro ⟨h, _⟩; exact List.eq_nil_of_length_eq_zero h
  | succ K ih =>
    simp only [allConfigs, List.mem_append, List.mem_map]
    constructor
    · rintro (⟨d, hd, rfl⟩ | ⟨d, hd, rfl⟩)
      · obtain ⟨h1, h2⟩ := ih.1 hd
        refine ⟨by simp [h1], ?_⟩
        intro x hx
        rcases List.mem_cons.1 hx with rfl | hx
        · omega
        · exact h2 x hx
      · obtain ⟨h1, h2⟩ := ih.1 hd
        refine ⟨by simp [h1], ?_⟩
        intro x hx
        rcases List.mem_cons.1 hx with rfl | hx
        · omega
        · exact h2 x hx
    · rintro ⟨h1, h2⟩
      cases c with
      | nil => simp at h1
      | cons x d =>
        have hx : x = 0 ∨ x = 1 := by
          have := h2 x (by simp)
          omega
        have hd : d ∈ allConfigs K :=
          ih.2 ⟨by simpa using h1, fun z hz => h2 z (by simp [hz])⟩
        rcases hx with rfl | rfl
        · exact Or.inl ⟨d, hd, rfl⟩
        · exact Or.inr ⟨d, hd, rfl⟩

theorem allConfigs_map_val (K : ℕ) :
    (allConfigs K).map bigEndianVal = List.range (2 ^ K) := by
  induction K with
  | zero => rfl
  | succ K ih =>
    have hlen : ∀ c ∈ allConfigs K, c.length = K := fun c hc => (allConfigs_mem.1 hc).1
    rw [allConfigs, List.map_append, List.map_map, List.map_map]
    have h0 : ((allConfigs K).map (bigEndianVal ∘ (0 :: ·))) = List.range (2 ^ K) := by
      rw [← ih]
      exact List.map_congr_left fun c _ => bigEndianVal_cons0 c
    have h1 : ((allConfigs K).map (bigEndianVal ∘ (1 :: ·))) =
        (List.range (2 ^ K)).map (2 ^ K + ·) := by
      rw [← ih, List.map_map]
      exact List.map_congr_left fun c hc => by
        simp [Function.comp, bigEndianVal_cons1, hlen c hc]
    rw [h0, h1, ← List.range_add]
    congr 1
    omega

theorem allConfigs_nodup (K : ℕ) : (allConfigs K).Nodup :=
  (List.Nodup.of_map bigEndianVal) (by rw [allConfigs_map_val]; exact List.nodup_range _)

theorem allConfigs_getD {K i : ℕ} (h : i < 2 ^ K) :
    bigEndianVal ((allConfigs K).getD i []) = i := by
  have hl : i < (allConfigs K).length := by rw [allConfigs_length]; exact h
  have hm : i < ((allConfigs K).map bigEndianVal).length := by simpa using hl
  have hr : i < (List.range (2 ^ K)).length := by simpa using h
  rw [List.getD_eq_getElem _ _ hl]
  have h2 : ((allConfigs K).map bigEndianVal)[i] = (List.range (2 ^ K))[i] := by
    simp only [allConfigs_map_val]
  simpa using h2

theorem allConfigs_val_lt {K : ℕ} {c : List ℕ} (h : c ∈ allConfigs K) :
    bigEndianVal c < 2 ^ K := by
  have : bigEndianVal c ∈ (allConfigs K).map bigEndianVal := List.mem_map_of_mem _ h
  rw [allConfigs_map_val] at this
  exact List.mem_range.1 this

theorem allConfigs_getElem_of_mem {K : ℕ} {c : List ℕ} (h : c ∈ allConfigs K) :
    (allConfigs K).getD (bigEndianVal c) [] = c := by
  obtain ⟨i, hi, hc⟩ := List.getElem_of_mem h
  have hm : i < ((allConfigs K).map bigEndianVal).length := by simpa using hi
  have hr : i < (List.range (2 ^ K)).length := by
    simpa [allConfigs_length] using hi
  have hv : bigEndianVal c = i := by
    have h2 : ((allConfigs K).map bigEndianVal)[i] = (List.range (2 ^ K))[i] := by
      simp only [allConfigs_map_val]
    simp only [List.getElem_map, List.getElem_range, hc] at h2
    exact h2
  rw [hv, List.getD_eq_getElem _ _ hi, hc]

theorem allConfigs_sorted (K : ℕ) : (allConfigs K).Pairwise lexLe := by
  induction K with
  | zero => exact List.pairwise_singleton _ _
  | succ K ih =>
    rw [allConfigs, List.pairwise_append]
    refine ⟨?_, ?_, ?_⟩
    · rw [List.pairwise_map]
      exact ih.imp (fun h => by simpa [lexLe, lexLeB] using h)
    · rw [List.pairwise_map]
      exact ih.imp (fun h => by simpa [lexLe, lexLeB] using h)
    · intro a ha b hb
      obtain ⟨c, _, rfl⟩ := List.mem_map.1 ha
      obtain ⟨d, _, rfl⟩ := List.mem_map.1 hb
      simp [lexLe, lexLeB]

theorem npUniqueRows_mem {y : List (List ℕ)} {c : List ℕ} :
    c ∈ npUniqueRows y ↔ c ∈ y := by
  rw [npUniqueRows, ((y.dedup).perm_insertionSort lexLe).mem_iff, List.mem_dedup]

theorem npUniqueRows_nodup (y : List (List ℕ)) : (npUniqueRows y).Nodup :=
  ((y.dedup).perm_insertionSort lexLe).nodup_iff.2 y.nodup_dedup

theorem npUniqueRows_sorted (y : List (List ℕ)) : (npUniqueRows y).Pairwise lexLe :=
  List.sorted_insertionSort lexLe y.dedup

theorem sum_map_add_distrib {α : Type} (l : List α) (f g : α → ℕ) :
    (l.map (fun x => f x + g x)).sum = (l.map f).sum + (l.map g).sum := by
  induction l with
  | nil => simp
  | cons x t ih => simp [ih]; ring

theorem sum_map_indicator {α : Type} [DecidableEq α] (l : List α) (r : α) :
    (l.map (fun c => if c = r then (1:ℕ) else 0)).sum = l.count r := by
  induction l with
  | nil => simp
  | cons x t ih =>
    rw [List.map_cons, List.sum_cons, ih]
    by_cases h : x = r
    · subst h
      rw [if_pos rfl, List.count_cons_self]
      omega
    · rw [if_neg h, List.count_cons_of_ne (Ne.symm h)]
      omega

theorem sum_counts_over_configs {K : ℕ} (y : List (List ℕ))
    (hy : ∀ r ∈ y, r ∈ allConfigs K) :
    ((allConfigs K).map (fun c => y.count c)).sum = y.length := by
  induction y with
  | nil => simp
  | cons r t ih =>
    have hr : r ∈ allConfigs K := hy r (by simp)
    have ht : ∀ s ∈ t, s ∈ allConfigs K := fun s hs => hy s (by simp [hs])
    have hcc : ∀ c : List ℕ, (r :: t).count c = t.count c + (if c = r then 1 else 0) := by
      intro c
      by_cases h : c = r
      · subst h; rw [List.count_cons_self, if_pos rfl]
      · rw [List.count_cons_of_ne h, if_neg h]
        omega
    calc ((allConfigs K).map (fun c => (r :: t).count c)).sum
        = ((allConfigs K).map (fun c => t.count c + (if c = r then 1 else 0))).sum := by
          exact congrArg List.sum (List.map_congr_left (fun c _ => hcc c))
      _ = ((allConfigs K).map (fun c => t.count c)).sum +
            ((allConfigs K).map (fun c => if c = r then (1:ℕ) else 0)).sum :=
          sum_map_add_distrib _ _ _
      _ = t.length + 1 := by
          rw [ih ht, sum_map_indicator, List.count_eq_one_of_mem (allConfigs_nodup K) hr]
      _ = (r :: t).length := by simp

theorem zip_self_map {α β : Type} (l : List α) (f : α → β) :
    l.zip (l.map f) = l.map (fun x => (x, f x)) := by
  induction l with
  | nil => rfl
  | cons x t ih => simp [ih]

theorem fix_missing_eq {K : ℕ} (y : List (List ℕ))
    (hy : ∀ r ∈ y, r ∈ allConfigs K) :
    _fix_missing_class_count K (npUniqueRows y)
      ((npUniqueRows y).map (fun u => y.count u)) =
    (allConfigs K).map (fun c => y.count c) := by
  have hsubset : ∀ c ∈ npUniqueRows y, c ∈ allConfigs K :=
    fun c hc => hy c (npUniqueRows_mem.1 hc)
  rw [_fix_missing_class_count]
  by_cases hlt : (npUniqueRows y).length < 2 ^ K
  · rw [if_pos hlt]
    show ((((npUniqueRows y ++ (allConfigs K).filter (fun c => decide (c ∉ npUniqueRows y))).zip
        ((npUniqueRows y).map (fun u => y.count u) ++
          ((allConfigs K).filter (fun c => decide (c ∉ npUniqueRows y))).map
            (fun _ => 0))).insertionSort valLe).map Prod.snd) =
      (allConfigs K).map (fun c => y.count c)
    set u := npUniqueRows y with hu
    set missing := (allConfigs K).filter (fun c => decide (c ∉ u)) with hm
    have hmiss_not_u : ∀ c ∈ missing, c ∉ u := by
      intro c hc
      have := (List.mem_filter.1 hc).2
      simpa using this
    have hnodup : (u ++ missing).Nodup := by
      rw [List.nodup_append]
      exact ⟨npUniqueRows_nodup y, (allConfigs_nodup K).filter _,
        fun c hcu hcm => hmiss_not_u c hcm hcu⟩
    have hmem : ∀ c, c ∈ u ++ missing ↔ c ∈ allConfigs K := by
      intro c
      rw [List.mem_append]
      constructor
      · rintro (hc | hc)
        · exact hsubset c hc
        · exact (List.mem_filter.1 hc).1
      · intro hc
        by_cases hcu : c ∈ u
        · exact Or.inl hcu
        · exact Or.inr (List.mem_filter.2 ⟨hc, by simpa using hcu⟩)
    have hperm : (u ++ missing).Perm (allConfigs K) :=
      (List.perm_ext_iff_of_nodup hnodup (allConfigs_nodup K)).2 hmem
    have hcounts : u.map (fun c => y.count c) ++ missing.map (fun _ => 0) =
        (u ++ missing).map (fun c => y.count c) := by
      rw [List.map_append]
      congr 1
      refine List.map_congr_left (fun c hc => ?_)
      exact (List.count_eq_zero.2 (fun hcy => hmiss_not_u c hc (npUniqueRows_mem.2 hcy))).symm
    have hpairsperm :
        ((u ++ missing).map (fun c => (c, y.count c))).Perm
          ((allConfigs K).map (fun c => (c, y.count c))) := hperm.map _
    have htargetval : ((allConfigs K).map (fun c => (c, y.count c))).map
        (fun p => bigEndianVal p.1) = List.range (2 ^ K) := by
      rw [List.map_map, ← allConfigs_map_val K]
      rfl
    have htarget_sorted :
        ((allConfigs K).map (fun c => (c, y.count c))).Pairwise valLt := by
      rw [List.pairwise_map]
      have h1 : (List.range (2 ^ K)).Pairwise (· < ·) := List.pairwise_lt_range _
      rw [← allConfigs_map_val K, List.pairwise_map] at h1
      exact h1.imp (fun h => h)
    have hsortperm :
        (((u ++ missing).map (fun c => (c, y.count c))).insertionSort valLe).Perm
          ((allConfigs K).map (fun c => (c, y.count c))) :=
      (List.perm_insertionSort valLe _).trans hpairsperm
    have hkeys_nodup :
        ((((u ++ missing).map (fun c => (c, y.count c))).insertionSort valLe).map
          (fun p => bigEndianVal p.1)).Nodup := by
      have := (hsortperm.map (fun p => bigEndianVal p.1)).nodup_iff
      rw [htargetval] at this
      exact this.2 (List.nodup_range _)
    have hkeys_ne : (((u ++ missing).map (fun c => (c, y.count c))).insertionSort
        valLe).Pairwise (fun p q => bigEndianVal p.1 ≠ bigEndianVal q.1) := by
      exact List.pairwise_map.mp (by simpa [List.Nodup] using hkeys_nodup)
    have hsorted_lt : (((u ++ missing).map (fun c => (c, y.count c))).insertionSort
        valLe).Pairwise valLt :=
      ((List.sorted_insertionSort valLe _).and hkeys_ne).imp
        (fun h => lt_of_le_of_ne h.1 h.2)
    have heq : ((u ++ missing).map (fun c => (c, y.count c))).insertionSort valLe =
        (allConfigs K).map (fun c => (c, y.count c)) :=
      List.eq_of_perm_of_sorted hsortperm hsorted_lt htarget_sorted
    rw [hcounts, zip_self_map, heq, List.map_map]
    rfl
  · rw [if_neg hlt]
    have hsub : (npUniqueRows y).Subperm (allConfigs K) :=
      (npUniqueRows_nodup y).subperm hsubset
    have hlen : (allConfigs K).length ≤ (npUniqueRows y).length := by
      rw [allConfigs_length]
      omega
    have hperm : (npUniqueRows y).Perm (allConfigs K) := hsub.perm_of_length_le hlen
    have : npUniqueRows y = allConfigs K :=
      List.eq_of_perm_of_sorted hperm (npUniqueRows_sorted y) (allConfigs_sorted K)
    rw [this]

theorem sum_map_div {α : Type} (l : List α) (f : α → ℚ) (d : ℚ) :
    (l.map (fun x => f x / d)).sum = (l.map f).sum / d := by
  induction l with
  | nil => simp
  | cons x t ih => simp [ih, add_div]

/-- C3: for every nonempty N×K binary label matrix, `multilabel_py` returns
the vector of empirical configuration frequencies indexed by ascending
big-endian value (one entry per configuration, length `2^K`, entries
non-negative, summing to 1, absent configurations mapped to 0); and
`multilabel_py [[0,0],[0,1],[1,0],[1,1],[1,0]] = [0.2, 0.2, 0.4, 0.2]`. -/
theorem C3_multilabel_py_prior (y : List (List ℕ)) (K : ℕ)
    (hy : y ≠ []) (hrect : ∀ r ∈ y, r.length = K)
    (hbin : ∀ r ∈ y, ∀ x ∈ r, x ≤ 1) :
    multilabel_py y = (allConfigs K).map (fun c => (y.count c : ℚ) / y.length) ∧
    (multilabel_py y).length = 2 ^ K ∧
    (∀ q ∈ multilabel_py y, 0 ≤ q) ∧
    (multilabel_py y).sum = 1 ∧
    (∀ i, i < 2 ^ K → bigEndianVal ((allConfigs K).getD i []) = i) ∧
    (∀ c ∈ allConfigs K, c ∉ y → (multilabel_py y).getD (bigEndianVal c) 0 = 0) ∧
    multilabel_py [[0,0],[0,1],[1,0],[1,1],[1,0]] =
      [(1:ℚ)/5, (1:ℚ)/5, (2:ℚ)/5, (1:ℚ)/5] := by
  have hyconf : ∀ r ∈ y, r ∈ allConfigs K :=
    fun r hr => allConfigs_mem.2 ⟨hrect r hr, hbin r hr⟩
  have hKhead : (y.headD []).length = K := by
    obtain ⟨r0, t, rfl⟩ : ∃ r0 t, y = r0 :: t := by
      cases y with
      | nil => exact absurd rfl hy
      | cons r0 t => exact ⟨r0, t, rfl⟩
    exact hrect r0 (by simp)
  have hmain : multilabel_py y =
      (allConfigs K).map (fun c => (y.count c : ℚ) / y.length) := by
    rw [multilabel_py]
    show (_fix_missing_class_count (y.headD []).length (npUniqueRows y)
        ((npUniqueRows y).map (fun u => y.count u))).map
          (fun c : ℕ => (c : ℚ) / y.length) = _
    rw [hKhead, fix_missing_eq y hyconf, List.map_map]
    rfl
  have hN0 : ((y.length : ℚ)) ≠ 0 := by
    have : y.length ≠ 0 := fun h => hy (List.eq_nil_of_length_eq_zero h)
    exact_mod_cast this
  refine ⟨hmain, ?_, ?_, ?_, fun i hi => allConfigs_getD hi, ?_, ?_⟩
  · rw [hmain, List.length_map, allConfigs_length]
  · rw [hmain]
    intro q hq
    obtain ⟨c, _, rfl⟩ := List.mem_map.1 hq
    positivity
  · rw [hmain, sum_map_div]
    have hcast : ((allConfigs K).map (fun c => ((y.count c : ℕ) : ℚ))).sum =
        (((allConfigs K).map (fun c => y.count c)).sum : ℚ) := by
      rw [Nat.cast_list_sum, List.map_map]
      rfl
    rw [hcast, sum_counts_over_configs y hyconf, div_self hN0]
  · intro c hc hcy
    have hvlt : bigEndianVal c < 2 ^ K := allConfigs_val_lt hc
    have hvlen : bigEndianVal c < (allConfigs K).length := by
      rw [allConfigs_length]; exact hvlt
    have hmaplen : bigEndianVal c <
        ((allConfigs K).map (fun c => (y.count c : ℚ) / y.length)).length := by
      rw [List.length_map]; exact hvlen
    rw [hmain, List.getD_eq_getElem _ _ hmaplen, List.getElem_map]
    have hgd : (allConfigs K)[bigEndianVal c] = c := by
      have := allConfigs_getElem_of_mem hc
      rwa [List.getD_eq_getElem _ _ hvlen] at this
    rw [hgd, List.count_eq_zero.2 hcy]
    simp
  · have h1 : _fix_missing_class_count 2
        (npUniqueRows [[0,0],[0,1],[1,0],[1,1],[1,0]])
        ((npUniqueRows [[0,0],[0,1],[1,0],[1,1],[1,0]]).map
          (fun u => ([[0,0],[0,1],[1,0],[1,1],[1,0]] : List (List ℕ)).count u)) =
        [1, 1, 2, 1] := by decide
    rw [multilabel_py]
    show (_fix_missing_class_count
        (([[0,0],[0,1],[1,0],[1,1],[1,0]] : List (List ℕ)).headD []).length
        (npUniqueRows [[0,0],[0,1],[1,0],[1,1],[1,0]])
        ((npUniqueRows [[0,0],[0,1],[1,0],[1,1],[1,0]]).map
          (fun u => ([[0,0],[0,1],[1,0],[1,1],[1,0]] : List (List ℕ)).count u))).map
        (fun c : ℕ => (c : ℚ) / (([[0,0],[0,1],[1,0],[1,1],[1,0]] : List (List ℕ)).length)) = _
    rw [show (([[0,0],[0,1],[1,0],[1,1],[1,0]] : List (List ℕ)).headD []).length = 2 from rfl,
      h1]
    norm_num [List.map]

/-- Witness for C3 at the concrete matrix of the spec scenario. -/
theorem C3_witness :
    multilabel_py [[0,0],[0,1],[1,0],[1,1],[1,0]] =
      [(1:ℚ)/5, (1:ℚ)/5, (2:ℚ)/5, (1:ℚ)/5] :=
  (C3_multilabel_py_prior [[0,0],[0,1],[1,0],[1,1],[1,0]] 2 (by simp)
    (by decide) (by decide)).2.2.2.2.2.2

/-- The default aggregator always runs the EMA with the bound `alpha=0.8`:
the construction-time kwargs win the merge. -/
theorem defaultAggregator_call_eq (scores : List (List ℚ)) (callKw : Kwargs) :
    defaultMultilabelScorer.aggregator.call scores callKw =
      exponential_moving_average scores (some (4/5)) := rfl

/-- Evaluation rule for `exponential_moving_average` with a supplied in-range
alpha and a nonzero number of columns. -/
theorem ema_eval_some (s : List (List ℚ)) (a : ℚ) (h0 : 0 ≤ a) (h1 : a ≤ 1)
    (hK : ¬ (s.headD []).length = 0) :
    exponential_moving_average s (some a) = .ok (s.map (emaRow a)) := by
  rw [exponential_moving_average]
  simp only [Option.getD_some]
  rw [if_pos ⟨h0, h1⟩, if_neg hK]

/-- Evaluation rule for `npMinMethod` when every row is nonempty. -/
theorem npMinMethod_eval (s : List (List ℚ)) (kw : Kwargs)
    (h : (s.all (fun r => !r.isEmpty)) = true) :
    npMinMethod s kw =
      .ok (s.map (fun r => match r with | [] => 0 | h :: t => t.foldl min h)) := by
  show (if (s.all (fun r => !r.isEmpty)) = true then
      Except.ok (s.map (fun r => match r with | [] => 0 | h :: t => t.foldl min h))
    else (.error ⟨.valueError,
      "zero-size array to reduction operation minimum which has no identity"⟩ :
        Except PyError (List ℚ))) =
    Except.ok (s.map (fun r => match r with | [] => 0 | h :: t => t.foldl min h))
  rw [if_pos h]

/-- Evaluation rule for `MultilabelScorer.call` when validation passes, the
per-column scoring loop returns a score matrix `sc` (as columns), and every
column has one entry per datapoint: the call hands the transposed score
matrix to the aggregator. -/
theorem multilabelScorer_call_ok
    (adjuster : List ℕ → List (List ℚ) → List (List ℚ))
    (scoreFn : ClassLabelScorer → List ℕ → List (List ℚ) → List ℚ)
    (self : MultilabelScorer) (labels : List (List ℕ))
    (pred_probs : List (List ℚ)) (adj : Bool) (aggKw : Kwargs)
    (sc : List (List ℚ))
    (hvalid : (if self.strict then _validate_labels_and_pred_probs labels pred_probs
       else Except.ok ()) = .ok ())
    (hscores : computeScoreCols (fun c => self.base_scorer.call adjuster scoreFn c.1
       (stack_complement c.2) adj)
       ((npTransposeD 0 labels).zip (npTransposeD 0 pred_probs)) = .ok sc)
    (hlen : sc.all (fun c => c.length = labels.length) = true) :
    MultilabelScorer.call adjuster scoreFn self labels pred_probs adj aggKw =
      self.aggregator.call (npTransposeD 0 sc) aggKw := by
  rw [MultilabelScorer.call, hvalid]
  show (match computeScoreCols (fun c => self.base_scorer.call adjuster scoreFn c.1
       (stack_complement c.2) adj)
       ((npTransposeD 0 labels).zip (npTransposeD 0 pred_probs)) with
    | .error e => Except.error e
    | .ok scoreCols =>
      if scoreCols.all (fun c => c.length = labels.length) = true then
        self.aggregator.call (npTransposeD 0 scoreCols) aggKw
      else .error ⟨.valueError, "could not broadcast input array"⟩) =
      self.aggregator.call (npTransposeD 0 sc) aggKw
  rw [hscores]
  show (if sc.all (fun c => c.length = labels.length) = true then
      self.aggregator.call (npTransposeD 0 sc) aggKw
    else .error ⟨.valueError, "could not broadcast input array"⟩) =
      self.aggregator.call (npTransposeD 0 sc) aggKw
  rw [if_pos hlen]

/-- C1: on `labels=[[0,1,0],[1,0,1]]`, `pred_probs=[[0.1,0.9,0.1],[0.4,0.1,0.9]]`
the default `MultilabelScorer()` returns `[0.9, 0.5]`, and a `MultilabelScorer`
whose aggregator is plain `np.min` returns `[0.9, 0.4]`, whenever the
self-confidence scoring function behaves as documented
(`pred_probs[i, labels[i]]`). -/
theorem C1_concrete_scenarios
    (adjuster : List ℕ → List (List ℚ) → List (List ℚ))
    (scoreFn : ClassLabelScorer → List ℕ → List (List ℚ) → List ℚ)
    (hsf : scoreFn .SELF_CONFIDENCE = get_self_confidence_for_each_label) :
    MultilabelScorer.call adjuster scoreFn defaultMultilabelScorer
        [[0,1,0],[1,0,1]] [[1/10, 9/10, 1/10],[2/5, 1/10, 9/10]] false emptyKwargs =
      .ok [(9:ℚ)/10, (1:ℚ)/2] ∧
    MultilabelScorer.call adjuster scoreFn
        ⟨.SELF_CONFIDENCE, aggregatorOf npMinMethod, true⟩
        [[0,1,0],[1,0,1]] [[1/10, 9/10, 1/10],[2/5, 1/10, 9/10]] false emptyKwargs =
      .ok [(9:ℚ)/10, (2:ℚ)/5] := by
  have hsc : ∀ labels pp, ClassLabelScorer.call adjuster scoreFn .SELF_CONFIDENCE
      labels pp false = .ok (get_self_confidence_for_each_label labels pp) := by
    intro labels pp
    rw [ClassLabelScorer.call, if_neg (by simp), hsf]
  have ht1 : npTransposeD 0 [[0,1,0],[1,0,1]] = ([[0,1],[1,0],[0,1]] : List (List ℕ)) := by
    decide
  have ht2 : npTransposeD (0:ℚ) [[1/10, 9/10, 1/10],[2/5, 1/10, 9/10]] =
      [[1/10, 2/5],[9/10, 1/10],[1/10, 9/10]] := by rfl
  have hscores : ∀ b : ClassLabelScorer, b = .SELF_CONFIDENCE →
      computeScoreCols (fun c => b.call adjuster scoreFn c.1
        (stack_complement c.2) false)
      ((npTransposeD 0 [[0,1,0],[1,0,1]]).zip
        (npTransposeD (0:ℚ) [[1/10, 9/10, 1/10],[2/5, 1/10, 9/10]])) =
      .ok [[1 - 1/10, 2/5], [9/10, 1 - 1/10], [1 - 1/10, 9/10]] := by
    intro b hb
    subst hb
    rw [ht1, ht2]
    rw [List.zip_cons_cons, List.zip_cons_cons, List.zip_cons_cons, List.zip_nil_right]
    rw [computeScoreCols, hsc, computeScoreCols, hsc, computeScoreCols, hsc,
      computeScoreCols]
    rfl
  have hT : npTransposeD (0:ℚ) [[1 - 1/10, 2/5], [9/10, 1 - 1/10], [1 - 1/10, 9/10]] =
      [[1 - 1/10, 9/10, 1 - 1/10], [2/5, 1 - 1/10, 9/10]] := by rfl
  constructor
  · rw [multilabelScorer_call_ok adjuster scoreFn defaultMultilabelScorer
      [[0,1,0],[1,0,1]] [[1/10, 9/10, 1/10],[2/5, 1/10, 9/10]] false emptyKwargs
      [[1 - 1/10, 2/5], [9/10, 1 - 1/10], [1 - 1/10, 9/10]]
      (by decide) (hscores _ rfl) (by decide)]
    rw [hT, defaultAggregator_call_eq]
    have he1 : emaRow ((4:ℚ)/5) [1 - 1/10, 9/10, 1 - 1/10] = (9:ℚ)/10 := by
      have hsd : sortDesc [1 - 1/10, 9/10, 1 - 1/10] = [1 - 1/10, 9/10, 1 - 1/10] := by
        apply sortDesc_eq_of_perm_of_sorted (List.Perm.refl _)
        refine List.Sorted.cons ?_ (List.Sorted.cons ?_ ?_) <;> norm_num
      rw [emaRow, hsd]
      show List.foldl _ (1 - (1:ℚ)/10) [(9:ℚ)/10, 1 - 1/10] = (9:ℚ)/10
      rw [List.foldl_cons, List.foldl_cons, List.foldl_nil]
      norm_num
    have he2 : emaRow ((4:ℚ)/5) [2/5, 1 - 1/10, 9/10] = (1:ℚ)/2 := by
      have hsd : sortDesc [(2:ℚ)/5, 1 - 1/10, 9/10] = [9/10, 1 - 1/10, 2/5] := by
        apply sortDesc_eq_of_perm_of_sorted
        · show (([(2:ℚ)/5, 1 - 1/10, 9/10].reverse : List ℚ)).Perm [(2:ℚ)/5, 1 - 1/10, 9/10]
          exact List.reverse_perm _
        · refine List.Sorted.cons ?_ (List.Sorted.cons ?_ ?_) <;> norm_num
      rw [emaRow, hsd]
      show List.foldl _ ((9:ℚ)/10) [1 - (1:ℚ)/10, (2:ℚ)/5] = (1:ℚ)/2
      rw [List.foldl_cons, List.foldl_cons, List.foldl_nil]
      norm_num
    rw [ema_eval_some _ _ (by norm_num) (by norm_num) (by decide)]
    rw [List.map_cons, List.map_cons, List.map_nil, he1, he2]
  · rw [multilabelScorer_call_ok adjuster scoreFn
      ⟨.SELF_CONFIDENCE, aggregatorOf npMinMethod, true⟩
      [[0,1,0],[1,0,1]] [[1/10, 9/10, 1/10],[2/5, 1/10, 9/10]] false emptyKwargs
      [[1 - 1/10, 2/5], [9/10, 1 - 1/10], [1 - 1/10, 9/10]]
      (by decide) (hscores _ rfl) (by decide)]
    rw [hT, Aggregator.call]
    show npMinMethod [[1 - 1/10, 9/10, 1 - 1/10], [2/5, 1 - 1/10, 9/10]]
        (dictUnion (setKey emptyKwargs "axis" 1) (aggregatorOf npMinMethod).kwargs) =
      (.ok [(9:ℚ)/10, (2:ℚ)/5] : Except PyError (List ℚ))
    rw [npMinMethod_eval _ _ (by decide), List.map_cons, List.map_cons, List.map_nil]
    show (Except.ok [List.foldl min (1 - (1:ℚ)/10) [(9:ℚ)/10, 1 - 1/10],
        List.foldl min ((2:ℚ)/5) [1 - (1:ℚ)/10, (9:ℚ)/10]] : Except PyError (List ℚ)) =
      .ok [(9:ℚ)/10, (2:ℚ)/5]
    rw [List.foldl_cons, List.foldl_cons, List.foldl_nil,
      List.foldl_cons, List.foldl_cons, List.foldl_nil]
    congr 1
    rw [min_eq_left (by norm_num), min_eq_left (by norm_num),
      min_eq_left (by norm_num), min_eq_left (by norm_num)]
    norm_num

/-- Witness for C1: the modelled self-confidence function and the identity
adjuster instantiate the scenario. -/
theorem C1_witness :
    MultilabelScorer.call (fun _ p => p) (fun _ => get_self_confidence_for_each_label)
        defaultMultilabelScorer [[0,1,0],[1,0,1]]
        [[1/10, 9/10, 1/10],[2/5, 1/10, 9/10]] false emptyKwargs =
      .ok [(9:ℚ)/10, (1:ℚ)/2] ∧
    MultilabelScorer.call (fun _ p => p) (fun _ => get_self_confidence_for_each_label)
        ⟨.SELF_CONFIDENCE, aggregatorOf npMinMethod, true⟩ [[0,1,0],[1,0,1]]
        [[1/10, 9/10, 1/10],[2/5, 1/10, 9/10]] false emptyKwargs =
      .ok [(9:ℚ)/10, (2:ℚ)/5] :=
  C1_concrete_scenarios (fun _ p => p) (fun _ => get_self_confidence_for_each_label) rfl

theorem map_eq_range_map {β : Type} (σ : List ℕ) (g : ℕ → β) :
    σ.map g = (List.range σ.length).map (fun i => g (σ.getD i 0)) := by
  apply List.ext_getElem
  · simp
  · intro i h1 h2
    simp only [List.getElem_map, List.getElem_range]
    rw [List.getD_eq_getElem σ 0 (by simpa using h1)]

theorem getD_map_in {β : Type} (σ : List ℕ) (f : ℕ → β) (d : β)
    (i : ℕ) (hi : i < σ.length) :
    (σ.map f).getD i d = f (σ.getD i 0) := by
  rw [List.getD_eq_getElem _ _ (by simpa using hi), List.getElem_map,
    List.getD_eq_getElem _ _ hi]

theorem npTransposeD_eq {α : Type} (d : α) (m : List (List α)) (K : ℕ)
    (hK : (m.headD []).length = K) :
    npTransposeD d m = (List.range K).map (fun j => m.map (fun r => r.getD j d)) := by
  rw [npTransposeD, hK]

theorem transpose_permCols {α : Type} (d : α) (σ : List ℕ)
    (m : List (List α)) (K : ℕ) (hK : ∀ r ∈ m, r.length = K) (hm : m ≠ [])
    (hσ : σ.Perm (List.range K)) :
    npTransposeD d (permColsD d σ m) =
      σ.map (fun j => m.map (fun r => r.getD j d)) := by
  obtain ⟨r0, t, rfl⟩ : ∃ r0 t, m = r0 :: t := by
    cases m with
    | nil => exact absurd rfl hm
    | cons r0 t => exact ⟨r0, t, rfl⟩
  have hσlen : σ.length = K := by
    have := hσ.length_eq
    simpa using this
  have hhead : ((permColsD d σ (r0 :: t)).headD []).length = σ.length := by
    simp [permColsD]
  rw [npTransposeD, hhead]
  rw [map_eq_range_map σ (fun j => (r0 :: t).map (fun r => r.getD j d))]
  refine List.map_congr_left (fun i hi => ?_)
  have hilt : i < σ.length := List.mem_range.1 hi
  rw [permColsD, List.map_map]
  refine List.map_congr_left (fun r _ => ?_)
  show (σ.map (fun j => r.getD j d)).getD i d = r.getD (σ.getD i 0) d
  exact getD_map_in σ _ d i hilt

theorem computeScoreCols_ok {g : List ℕ × List ℚ → List ℚ}
    {f : List ℕ × List ℚ → Except PyError (List ℚ)} (l : List (List ℕ × List ℚ))
    (h : ∀ c ∈ l, f c = .ok (g c)) :
    computeScoreCols f l = .ok (l.map g) := by
  induction l with
  | nil => rfl
  | cons c t ih =>
    rw [computeScoreCols, h c (by simp), ih (fun c hc => h c (by simp [hc]))]
    rfl

theorem scorer_call_false
    (adjuster : List ℕ → List (List ℚ) → List (List ℚ))
    (scoreFn : ClassLabelScorer → List ℕ → List (List ℚ) → List ℚ)
    (v : ClassLabelScorer) (labels : List ℕ) (pred_probs : List (List ℚ)) :
    ClassLabelScorer.call adjuster scoreFn v labels pred_probs false =
      .ok (scoreFn v labels pred_probs) := rfl

theorem map_length_replicate {α : Type} (y : List (List α)) (K : ℕ)
    (h : ∀ r ∈ y, r.length = K) :
    y.map List.length = List.replicate y.length K := by
  induction y with
  | nil => rfl
  | cons r t ih =>
    rw [List.map_cons, List.length_cons, List.replicate_succ,
      ih (fun s hs => h s (by simp [hs])), h r (by simp)]

theorem is_multilabel_eq_true {y : List (List ℕ)} {K : ℕ}
    (hrect : ∀ r ∈ y, r.length = K) (hbin : ∀ r ∈ y, ∀ x ∈ r, x ≤ 1) :
    _is_multilabel y = true := by
  rw [_is_multilabel, Bool.and_eq_true, List.all_eq_true, List.all_eq_true]
  constructor
  · intro r hr
    have h2 : (y.headD []).length = K := by
      cases y with
      | nil => cases hr
      | cons r0 t => exact hrect r0 (by simp)
    simp only [decide_eq_true_eq]
    rw [hrect r hr, h2]
  · intro r hr
    rw [List.all_eq_true]
    intro x hx
    have := hbin r hr x hx
    simp only [Bool.or_eq_true, decide_eq_true_eq]
    omega

theorem validate_ok {labels : List (List ℕ)} {pred_probs : List (List ℚ)} {K : ℕ}
    (hrectL : ∀ r ∈ labels, r.length = K) (hbin : ∀ r ∈ labels, ∀ x ∈ r, x ≤ 1)
    (hrectP : ∀ r ∈ pred_probs, r.length = K)
    (hlen : labels.length = pred_probs.length) :
    _validate_labels_and_pred_probs labels pred_probs = .ok () := by
  have hml := is_multilabel_eq_true hrectL hbin
  have hshape : labels.map List.length = pred_probs.map List.length := by
    rw [map_length_replicate labels K hrectL, map_length_replicate pred_probs K hrectP,
      hlen]
  rw [_validate_labels_and_pred_probs, if_neg (by rw [hml]; simp),
    if_neg (not_not_intro hshape)]

theorem perm_all_eq {α : Type} {l₁ l₂ : List α} (h : l₁.Perm l₂) (p : α → Bool) :
    l₁.all p = l₂.all p := by
  have hiff : l₁.all p = true ↔ l₂.all p = true := by
    rw [List.all_eq_true, List.all_eq_true]
    exact ⟨fun H a ha => H a (h.mem_iff.2 ha), fun H a ha => H a (h.mem_iff.1 ha)⟩
  cases h1 : l₁.all p <;> cases h2 : l₂.all p <;> simp_all

/-- Companion to `multilabelScorer_call_ok`: when some score column does not
have one entry per datapoint, the column assignment raises the numpy
broadcast error. -/
theorem multilabelScorer_call_err
    (adjuster : List ℕ → List (List ℚ) → List (List ℚ))
    (scoreFn : ClassLabelScorer → List ℕ → List (List ℚ) → List ℚ)
    (self : MultilabelScorer) (labels : List (List ℕ))
    (pred_probs : List (List ℚ)) (adj : Bool) (aggKw : Kwargs)
    (sc : List (List ℚ))
    (hvalid : (if self.strict then _validate_labels_and_pred_probs labels pred_probs
       else Except.ok ()) = .ok ())
    (hscores : computeScoreCols (fun c => self.base_scorer.call adjuster scoreFn c.1
       (stack_complement c.2) adj)
       ((npTransposeD 0 labels).zip (npTransposeD 0 pred_probs)) = .ok sc)
    (hlen : sc.all (fun c => c.length = labels.length) = false) :
    MultilabelScorer.call adjuster scoreFn self labels pred_probs adj aggKw =
      .error ⟨.valueError, "could not broadcast input array"⟩ := by
  rw [MultilabelScorer.call, hvalid]
  show (match computeScoreCols (fun c => self.base_scorer.call adjuster scoreFn c.1
       (stack_complement c.2) adj)
       ((npTransposeD 0 labels).zip (npTransposeD 0 pred_probs)) with
    | .error e => Except.error e
    | .ok scoreCols =>
      if scoreCols.all (fun c => c.length = labels.length) = true then
        self.aggregator.call (npTransposeD 0 scoreCols) aggKw
      else .error ⟨.valueError, "could not broadcast input array"⟩) =
      .error ⟨.valueError, "could not broadcast input array"⟩
  rw [hscores]
  show (if sc.all (fun c => c.length = labels.length) = true then
      self.aggregator.call (npTransposeD 0 sc) aggKw
    else .error ⟨.valueError, "could not broadcast input array"⟩) =
      .error ⟨.valueError, "could not broadcast input array"⟩
  rw [if_neg (by rw [hlen]; simp)]

theorem headD_mem {α : Type} {l : List α} (d : α) (h : l ≠ []) : l.headD d ∈ l := by
  cases l with
  | nil => exact absurd rfl h
  | cons x t => simp

/-- C4: applying the same column permutation to both `labels` and
`pred_probs` leaves the default `MultilabelScorer`'s output unchanged: the
per-class scores are computed column-wise independently (for an arbitrary
scoring function) and the EMA aggregator sorts each row before reducing. -/
theorem C4_column_permutation_invariance
    (adjuster : List ℕ → List (List ℚ) → List (List ℚ))
    (scoreFn : ClassLabelScorer → List ℕ → List (List ℚ) → List ℚ)
    (labels : List (List ℕ)) (pred_probs : List (List ℚ)) (K : ℕ) (σ : List ℕ)
    (hσ : σ.Perm (List.range K))
    (hrectL : ∀ r ∈ labels, r.length = K)
    (hrectP : ∀ r ∈ pred_probs, r.length = K)
    (hlen : labels.length = pred_probs.length)
    (hbin : ∀ r ∈ labels, ∀ x ∈ r, x ≤ 1) :
    MultilabelScorer.call adjuster scoreFn defaultMultilabelScorer
        (permColsD 0 σ labels) (permColsD (0:ℚ) σ pred_probs) false emptyKwargs =
      MultilabelScorer.call adjuster scoreFn defaultMultilabelScorer
        labels pred_probs false emptyKwargs := by
  by_cases hl : labels = []
  · subst hl
    have hp : pred_probs = [] := by
      cases pred_probs with
      | nil => rfl
      | cons p t => simp at hlen
    subst hp
    rfl
  · have hpne : pred_probs ≠ [] := by
      intro h
      rw [h] at hlen
      simp at hlen
      exact hl hlen
    have hσlen : σ.length = K := by simpa using hσ.length_eq
    have hheadL : (labels.headD []).length = K := hrectL _ (headD_mem [] hl)
    have hheadP : (pred_probs.headD []).length = K := hrectP _ (headD_mem [] hpne)
    have hrectL' : ∀ r ∈ permColsD 0 σ labels, r.length = K := by
      intro r hr
      obtain ⟨s, _, rfl⟩ := List.mem_map.1 hr
      simp [hσlen]
    have hrectP' : ∀ r ∈ permColsD (0:ℚ) σ pred_probs, r.length = K := by
      intro r hr
      obtain ⟨s, _, rfl⟩ := List.mem_map.1 hr
      simp [hσlen]
    have hlen' : (permColsD 0 σ labels).length = (permColsD (0:ℚ) σ pred_probs).length := by
      simpa [permColsD] using hlen
    have hbin' : ∀ r ∈ permColsD 0 σ labels, ∀ x ∈ r, x ≤ 1 := by
      intro r hr x hx
      obtain ⟨s, hs, rfl⟩ := List.mem_map.1 hr
      obtain ⟨j, hj, rfl⟩ := List.mem_map.1 hx
      have hjK : j < K := List.mem_range.1 (hσ.mem_iff.1 hj)
      have hjlen : j < s.length := by rw [hrectL s hs]; exact hjK
      rw [List.getD_eq_getElem s 0 hjlen]
      exact hbin s hs _ (List.getElem_mem hjlen)
    have hvO : (if defaultMultilabelScorer.strict then
        _validate_labels_and_pred_probs labels pred_probs else Except.ok ()) = .ok () :=
      validate_ok hrectL hbin hrectP hlen
    have hvP : (if defaultMultilabelScorer.strict then
        _validate_labels_and_pred_probs (permColsD 0 σ labels)
          (permColsD (0:ℚ) σ pred_probs) else Except.ok ()) = .ok () :=
      validate_ok hrectL' hbin' hrectP' hlen'
    set S := fun j => scoreFn ClassLabelScorer.SELF_CONFIDENCE
      (labels.map (fun r => r.getD j 0))
      (stack_complement (pred_probs.map (fun r => r.getD j 0))) with hS
    have hcolsO : (npTransposeD 0 labels).zip (npTransposeD (0:ℚ) pred_probs) =
        (List.range K).map (fun j => (labels.map (fun r => r.getD j 0),
          pred_probs.map (fun r => r.getD j 0))) := by
      rw [npTransposeD_eq 0 labels K hheadL,
        npTransposeD_eq (0:ℚ) pred_probs K hheadP, List.zip_map']
    have hcolsP : (npTransposeD 0 (permColsD 0 σ labels)).zip
        (npTransposeD (0:ℚ) (permColsD (0:ℚ) σ pred_probs)) =
        σ.map (fun j => (labels.map (fun r => r.getD j 0),
          pred_probs.map (fun r => r.getD j 0))) := by
      rw [transpose_permCols 0 σ labels K hrectL hl hσ,
        transpose_permCols (0:ℚ) σ pred_probs K hrectP hpne hσ, List.zip_map']
    have hscO : computeScoreCols
        (fun c => defaultMultilabelScorer.base_scorer.call adjuster scoreFn c.1
          (stack_complement c.2) false)
        ((npTransposeD 0 labels).zip (npTransposeD (0:ℚ) pred_probs)) =
        .ok ((List.range K).map S) := by
      rw [hcolsO, computeScoreCols_ok _
        (fun c _ => scorer_call_false adjuster scoreFn _ c.1 (stack_complement c.2)),
        List.map_map]
      rfl
    have hscP : computeScoreCols
        (fun c => defaultMultilabelScorer.base_scorer.call adjuster scoreFn c.1
          (stack_complement c.2) false)
        ((npTransposeD 0 (permColsD 0 σ labels)).zip
          (npTransposeD (0:ℚ) (permColsD (0:ℚ) σ pred_probs))) =
        .ok (σ.map S) := by
      rw [hcolsP, computeScoreCols_ok _
        (fun c _ => scorer_call_false adjuster scoreFn _ c.1 (stack_complement c.2)),
        List.map_map]
      rfl
    have hpermS : (σ.map S).Perm ((List.range K).map S) := hσ.map S
    have hplen : (permColsD 0 σ labels).length = labels.length := by simp [permColsD]
    by_cases hall : (((List.range K).map S).all
        (fun c => c.length = labels.length)) = true
    · have hallP : ((σ.map S).all
          (fun c => c.length = (permColsD 0 σ labels).length)) = true := by
        rw [hplen, perm_all_eq hpermS]
        exact hall
      rw [multilabelScorer_call_ok adjuster scoreFn defaultMultilabelScorer
          (permColsD 0 σ labels) (permColsD (0:ℚ) σ pred_probs) false emptyKwargs
          (σ.map S) hvP hscP hallP,
        multilabelScorer_call_ok adjuster scoreFn defaultMultilabelScorer
          labels pred_probs false emptyKwargs ((List.range K).map S) hvO hscO hall,
        defaultAggregator_call_eq, defaultAggregator_call_eq]
      by_cases hK0 : K = 0
      · subst hK0
        have hσnil : σ = [] := List.eq_nil_of_length_eq_zero (by rw [hσlen])
        rw [hσnil]
        rfl
      · have hNne : labels.length ≠ 0 := fun h => hl (List.eq_nil_of_length_eq_zero h)
        have hlenO : ∀ c ∈ (List.range K).map S, c.length = labels.length := by
          intro c hc
          have := List.all_eq_true.1 hall c hc
          simpa using this
        have hhead_trans : ∀ L : List (List ℚ),
            ((List.range labels.length).map
              (fun r => L.map (fun c => c.getD r 0))).headD [] =
              L.map (fun c => c.getD 0 0) := by
          intro L
          obtain ⟨n', hn'⟩ := Nat.exists_eq_succ_of_ne_zero hNne
          rw [hn', List.range_succ_eq_map, List.map_cons, List.headD_cons]
        have hPmapne : σ.map S ≠ [] := by
          intro h
          apply hK0
          have hnil : σ = [] := List.map_eq_nil_iff.1 h
          rw [hnil] at hσlen
          simpa using hσlen.symm
        have hOmapne : (List.range K).map S ≠ [] := by
          intro h
          apply hK0
          have hnil : List.range K = [] := List.map_eq_nil_iff.1 h
          simpa using hnil
        have hh1 : ((σ.map S).headD []).length = labels.length :=
          hlenO _ (hpermS.mem_iff.1 (headD_mem [] hPmapne))
        have hh2 : (((List.range K).map S).headD []).length = labels.length :=
          hlenO _ (headD_mem [] hOmapne)
        rw [npTransposeD_eq 0 (σ.map S) labels.length hh1,
          npTransposeD_eq 0 ((List.range K).map S) labels.length hh2]
        rw [ema_eval_some _ _ (by norm_num) (by norm_num)
            (by rw [hhead_trans]
                simp only [List.length_map, hσlen]
                exact hK0),
          ema_eval_some _ _ (by norm_num) (by norm_num)
            (by rw [hhead_trans]
                simp only [List.length_map, List.length_range]
                exact hK0)]
        apply congrArg Except.ok
        rw [List.map_map, List.map_map]
        refine List.map_congr_left (fun r _ => ?_)
        show emaRow (4/5) ((σ.map S).map (fun c => c.getD r 0)) =
          emaRow (4/5) (((List.range K).map S).map (fun c => c.getD r 0))
        exact emaRow_perm (hpermS.map _)
    · have hallF : (((List.range K).map S).all
          (fun c => c.length = labels.length)) = false := by
        revert hall
        cases ((List.range K).map S).all (fun c => c.length = labels.length) <;> simp
      have hallPF : ((σ.map S).all
          (fun c => c.length = (permColsD 0 σ labels).length)) = false := by
        rw [hplen, perm_all_eq hpermS]
        exact hallF
      rw [multilabelScorer_call_err adjuster scoreFn defaultMultilabelScorer
          (permColsD 0 σ labels) (permColsD (0:ℚ) σ pred_probs) false emptyKwargs
          (σ.map S) hvP hscP hallPF,
        multilabelScorer_call_err adjuster scoreFn defaultMultilabelScorer
          labels pred_probs false emptyKwargs ((List.range K).map S) hvO hscO hallF]

/-- Witness for C4: swapping the two columns of a concrete 2×2 problem. -/
theorem C4_witness :
    MultilabelScorer.call (fun _ p => p) (fun _ => get_self_confidence_for_each_label)
        defaultMultilabelScorer
        (permColsD 0 [1, 0] [[0,1],[1,0]])
        (permColsD (0:ℚ) [1, 0] [[1/2, 1/3],[1/4, 1/5]]) false emptyKwargs =
      MultilabelScorer.call (fun _ p => p) (fun _ => get_self_confidence_for_each_label)
        defaultMultilabelScorer [[0,1],[1,0]] [[1/2, 1/3],[1/4, 1/5]] false emptyKwargs :=
  C4_column_permutation_invariance (fun _ p => p)
    (fun _ => get_self_confidence_for_each_label)
    [[0,1],[1,0]] [[1/2, 1/3],[1/4, 1/5]] 2 [1, 0]
    (by decide) (by decide) (by decide) (by decide) (by decide)
